import Mathlib

/-!
Verification of the audio-to-chord inference core of the `a-minor-prediction`
repository (backend/app/preprocessing/vocabulary.py, backend/app/ml/predictor.py,
backend/app/ml/feature_extractor.py).

Embedding conventions:
* Python floats are idealised as exact rationals (`ℚ`).
* Python strings are `List Char`; `str s` converts a Lean string literal.
* Python `int(x)` truncates toward zero (`pyInt`); Python `round` is
  round-half-to-even (`pyRound`); `round(x, k)` is `pyRound2`/`pyRound1`.
* External numeric library calls (librosa mel spectrogram, the torch model with
  its softmax/argmax, numpy RMS, librosa beat tracking) are abstracted as
  function parameters; every control-flow decision of the repository's own code
  is embedded exactly.
* Python dicts with pairwise-distinct keys built by enumeration loops are
  modelled by the underlying enumeration list, with lookup by position.
-/

/-- Conversion from a Lean string literal to the `List Char` representation
used for Python strings throughout this development. -/
def str (s : String) : List Char := s.data

/-- Python `int(x)` applied to a float: truncation toward zero. -/
def pyInt (q : ℚ) : ℤ :=
  if 0 ≤ q then ⌊q⌋ else ⌈q⌉

/-- Python `round(x)`: round half to even (banker's rounding). -/
def pyRound (q : ℚ) : ℤ :=
  if q - ⌊q⌋ < 1/2 then ⌊q⌋
  else if 1/2 < q - ⌊q⌋ then ⌊q⌋ + 1
  else if Even ⌊q⌋ then ⌊q⌋ else ⌊q⌋ + 1

/-- Python `round(x, 2)`. -/
def pyRound2 (q : ℚ) : ℚ := (pyRound (q * 100) : ℚ) / 100

/-- Python `round(x, 1)`. -/
def pyRound1 (q : ℚ) : ℚ := (pyRound (q * 10) : ℚ) / 10

/-- Python substring test `sub in s` on strings represented as `List Char`. -/
def containsSub (s sub : List Char) : Bool :=
  sub.isPrefixOf s ||
    match s with
    | [] => false
    | _ :: t => containsSub t sub

/-- Python slice `l[a:b]` for integer indices `a`, `b` (negative indices count
from the end, out-of-range indices are clamped, `b ≤ a` gives `[]`). -/
def pySlice {α : Type} (l : List α) (a b : ℤ) : List α :=
  let n : ℤ := l.length
  let a' : ℤ := if a < 0 then max (n + a) 0 else min a n
  let b' : ℤ := if b < 0 then max (n + b) 0 else min b n
  (l.drop a'.toNat).take (b' - a').toNat

namespace ChordVocabulary

/-- `ChordVocabulary.ROOTS`. -/
def ROOTS : List (List Char) :=
  [str "C", str "C#", str "D", str "D#", str "E", str "F",
   str "F#", str "G", str "G#", str "A", str "A#", str "B"]

/-- `ChordVocabulary.ROOT_ALIASES`, in Python dict insertion order. -/
def ROOT_ALIASES : List (List Char × List Char) :=
  [(str "Db", str "C#"), (str "Eb", str "D#"), (str "Fb", str "E"),
   (str "Gb", str "F#"), (str "Ab", str "G#"), (str "Bb", str "A#"),
   (str "Cb", str "B")]

/-- `ChordVocabulary.QUALITIES`. -/
def QUALITIES : List (List Char) :=
  [str "maj", str "min", str "dim", str "aug",
   str "7", str "maj7", str "min7", str "dim7"]

/-- `sorted(self.ROOTS, key=len, reverse=True)` as evaluated in
`normalize_chord`: Python's sort is stable, so the two-character roots come
first in their original order, then the one-character roots in theirs. -/
def sortedRoots : List (List Char) :=
  [str "C#", str "D#", str "F#", str "G#", str "A#",
   str "C", str "D", str "E", str "F", str "G", str "A", str "B"]

/-- The label enumeration performed by `ChordVocabulary.__init__`: the sentinel
`"N"` at index 0, then `root + quality` for each root and quality, in loop
order.  The Python dicts `chord_to_idx` / `idx_to_chord` are this list indexed
by position. -/
def chordLabels : List (List Char) :=
  str "N" :: ROOTS.flatMap (fun root => QUALITIES.map (fun quality => root ++ quality))

/-- `self.num_classes`. -/
def num_classes : ℕ := chordLabels.length

/-- Position of the first occurrence of an element in a list (the class index
a key received when the dict was built by enumeration). -/
def posOf {α : Type} [DecidableEq α] (a : α) : List α → ℕ
  | [] => 0
  | b :: t => if b = a then 0 else posOf a t + 1

/-- Lookup in the `chord_to_idx` dict: the position of a label in the
construction-order enumeration, `none` for a missing key. -/
def chord_to_idx (s : List Char) : Option ℕ :=
  if s ∈ chordLabels then some (posOf s chordLabels) else none

/-- Lookup in the `idx_to_chord` dict. -/
def idx_to_chord (i : ℕ) : Option (List Char) :=
  chordLabels.get? i

/-- The alias-resolution loop of `normalize_chord`: the first alias that is a
prefix of the input has its spelling replaced by the canonical root. -/
def applyAlias (chord : List Char) : List Char :=
  match ROOT_ALIASES.find? (fun p => p.1.isPrefixOf chord) with
  | some p => p.2 ++ chord.drop p.1.length
  | none => chord

/-- The quality-classification chain of `normalize_chord` (source lines 45-60):
`suffix` is the case-folded remainder after the root, `origSuffix` the
original-case remainder; each test is Python substring membership, first match
wins. -/
def classifyQuality (suffix origSuffix : List Char) : List Char :=
  if containsSub suffix (str "maj7") || containsSub origSuffix (str "M7") then str "maj7"
  else if containsSub suffix (str "min7") || containsSub suffix (str "m7") then str "min7"
  else if containsSub suffix (str "dim7") then str "dim7"
  else if containsSub suffix (str "7") then str "7"
  else if containsSub suffix (str "dim") then str "dim"
  else if containsSub suffix (str "aug") then str "aug"
  else if containsSub suffix (str "min") || containsSub suffix (str "m") then str "min"
  else str "maj"

/-- `ChordVocabulary.normalize_chord`. -/
def normalize_chord (chord : List Char) : List Char :=
  if chord = [] ∨ chord = str "N" ∨ chord = str "X" then str "N"
  else
    let chord' := applyAlias chord
    match sortedRoots.find? (fun r => r.isPrefixOf chord') with
    | none => str "N"
    | some root =>
        let origSuffix := chord'.drop root.length
        let suffix := origSuffix.map Char.toLower
        root ++ classifyQuality suffix origSuffix

/-- `ChordVocabulary.encode`: normalize, then dict lookup with default 0. -/
def encode (chord : List Char) : ℕ :=
  (chord_to_idx (normalize_chord chord)).getD 0

/-- `ChordVocabulary.decode`: dict lookup with default `"N"`. -/
def decode (i : ℕ) : List Char :=
  (idx_to_chord i).getD (str "N")

end ChordVocabulary

namespace ChordVocabulary

/-- The quality-classification chain always returns one of the eight canonical
quality strings. -/
lemma classifyQuality_mem (suffix origSuffix : List Char) :
    classifyQuality suffix origSuffix ∈ QUALITIES := by
  unfold classifyQuality
  repeat' split
  all_goals decide

/-- Any root found by the longest-prefix search, combined with any canonical
quality, is a label of the construction-order enumeration. -/
lemma root_quality_mem :
    ∀ r ∈ sortedRoots, ∀ q ∈ QUALITIES, r ++ q ∈ chordLabels := by decide

/-- An element of a list sits strictly before the end at its `posOf` position. -/
lemma posOf_lt_length {α : Type} [DecidableEq α] {a : α} :
    ∀ {l : List α}, a ∈ l → posOf a l < l.length := by
  intro l hl
  induction l with
  | nil => cases hl
  | cons b t ih =>
      by_cases hb : b = a
      · simp [posOf, hb]
      · rcases List.mem_cons.1 hl with h | h
        · exact absurd h.symm hb
        · simpa [posOf, hb, Nat.succ_lt_succ_iff] using ih h

/-- Reading a list back at the `posOf` position of a member returns it. -/
lemma get?_posOf {α : Type} [DecidableEq α] {a : α} :
    ∀ {l : List α}, a ∈ l → l.get? (posOf a l) = some a := by
  intro l hl
  induction l with
  | nil => cases hl
  | cons b t ih =>
      by_cases hb : b = a
      · simp [posOf, hb]
      · rcases List.mem_cons.1 hl with h | h
        · exact absurd h.symm hb
        · simpa [posOf, hb] using ih h

/-- `normalize_chord` always lands inside the enumerated label alphabet. -/
lemma normalize_mem (s : List Char) : normalize_chord s ∈ chordLabels := by
  unfold normalize_chord
  split
  · decide
  · cases hf : sortedRoots.find? (fun r => r.isPrefixOf (applyAlias s)) with
    | none => simp [hf]; decide
    | some root =>
        simp only [hf]
        exact root_quality_mem root (List.mem_of_find?_eq_some hf) _
          (classifyQuality_mem _ _)

end ChordVocabulary

namespace ChordVocabulary

/-- C1 (counterexample): the claim's particular consequences fail on the code.
An input whose suffix after the root is exactly `dim7` is classified `min7`
(the `min7` test also accepts the substring `m7`, which occurs inside `dim7`),
and an input whose suffix is exactly `maj` is classified `min` (the `min` test
also accepts the substring `m`, which occurs inside `maj`). -/
theorem c1_counterexample :
    normalize_chord (str "Cdim7") ≠ str "Cdim7" ∧
    normalize_chord (str "Cdim7") = str "Cmin7" ∧
    normalize_chord (str "Cmaj") ≠ str "Cmaj" ∧
    normalize_chord (str "Cmaj") = str "Cmin" := by decide

/-- C1 (amended): `normalize_chord` tests the spec's fixed priority order with
first match winning, but each test is substring containment of the
(case-folded) suffix.  Consequently, for every canonical root: suffix `maj7`,
`min7`, `7`, `dim`, `aug` and `min` classify as themselves, bare `m` as `min`,
and the empty suffix defaults to `maj`; but suffix `dim7` classifies as `min7`
(its substring `m7` fires the earlier `min7` test) and suffix `maj` classifies
as `min` (its substring `m` fires the `min` test). -/
theorem c1_quality_priority (r : List Char) (hr : r ∈ ROOTS) :
    normalize_chord (r ++ str "maj7") = r ++ str "maj7" ∧
    normalize_chord (r ++ str "min7") = r ++ str "min7" ∧
    normalize_chord (r ++ str "dim7") = r ++ str "min7" ∧
    normalize_chord (r ++ str "7") = r ++ str "7" ∧
    normalize_chord (r ++ str "dim") = r ++ str "dim" ∧
    normalize_chord (r ++ str "aug") = r ++ str "aug" ∧
    normalize_chord (r ++ str "min") = r ++ str "min" ∧
    normalize_chord (r ++ str "m") = r ++ str "min" ∧
    normalize_chord (r ++ str "maj") = r ++ str "min" ∧
    normalize_chord r = r ++ str "maj" := by
  fin_cases hr <;> (set_option maxRecDepth 4000 in decide)

/-- C1 (witness): the amended theorem instantiated at the root `C`. -/
theorem c1_quality_priority_witness :
    str "C" ∈ ROOTS ∧ normalize_chord (str "C" ++ str "dim7") = str "C" ++ str "min7" :=
  ⟨by decide, (c1_quality_priority (str "C") (by decide)).2.2.1⟩

/-- C4 (counterexample): `encode` is not injective on the 97-label alphabet and
the round trip fails there: `"Cmaj"` and `"Cmin"` are both alphabet labels,
yet `encode` sends both to the same index, and `decode (encode "Cmaj")`
is `"Cmin"`, not `"Cmaj"` — because `encode` normalizes its argument first and
normalization rewrites the quality `maj` to `min`. -/
theorem c4_counterexample :
    str "Cmaj" ∈ chordLabels ∧ str "Cmin" ∈ chordLabels ∧
    encode (str "Cmaj") = encode (str "Cmin") ∧ str "Cmaj" ≠ str "Cmin" ∧
    decode (encode (str "Cmaj")) ≠ str "Cmaj" := by decide

set_option maxRecDepth 40000 in
/-- C4 (amended): the underlying index table built by `__init__` is a genuine
bijection on the 97-label alphabet: there are exactly 97 labels, no label is
enumerated twice (so each has a unique class index), and table lookup followed
by `decode` returns every alphabet label unchanged.  (The failure exhibited by
the counterexample lies solely in `encode`'s preliminary normalization.) -/
theorem c4_table_bijective :
    chordLabels.length = 97 ∧ chordLabels.Nodup ∧
    chordLabels.map (fun L => decode ((chord_to_idx L).getD 0)) = chordLabels := by
  decide

/-- C6 (confirmed): `encode` is total and always yields a valid class index;
inputs that normalize to the sentinel get index 0; and for every string `s`,
`decode (encode s) = normalize_chord s`. -/
theorem c6_encode_total_roundtrip (s : List Char) :
    encode s < num_classes ∧
    (normalize_chord s = str "N" → encode s = 0) ∧
    decode (encode s) = normalize_chord s := by
  have hm := normalize_mem s
  have he : encode s = posOf (normalize_chord s) chordLabels := by
    unfold encode chord_to_idx
    rw [if_pos hm]
    rfl
  refine ⟨?_, ?_, ?_⟩
  · rw [he]
    exact posOf_lt_length hm
  · intro h
    rw [he, h]
    decide
  · rw [he]
    unfold decode idx_to_chord
    rw [get?_posOf hm]
    rfl

end ChordVocabulary

/-- `x or settings.sample_rate` for a sample-rate argument: Python treats both
`None` and `0` as falsy, and the configured default is 22050. -/
def resolveSampleRate (sr : Option ℕ) : ℕ :=
  match sr with
  | none => 22050
  | some 0 => 22050
  | some k => k

/-- Configuration of `AudioFeatureExtractor` after constructor resolution
(`sample_rate or settings.sample_rate`, `settings.segment_duration`): the two
fields the inference code reads. -/
structure ExtractorConfig where
  sample_rate : ℕ
  segment_duration : ℚ
deriving DecidableEq

/-- The extractor built from the default settings (`sample_rate = 22050`,
`segment_duration = 0.5`). -/
def defaultExtractor : ExtractorConfig := ⟨22050, 1/2⟩

/-- `duration = duration or self.segment_duration` inside
`get_segment_features`: Python `or` replaces both `None` and `0.0` by the
configured default. -/
def resolveDuration (cfg : ExtractorConfig) (duration : Option ℚ) : ℚ :=
  match duration with
  | none => cfg.segment_duration
  | some q => if q = 0 then cfg.segment_duration else q

/-- `AudioFeatureExtractor.get_segment_features` (source lines 53-64).  The
trailing `extract_mel_spectrogram` call is an external librosa computation and
is abstracted as the parameter `mel`; every check and index computation of the
repository's own code is embedded exactly: `int(...)` truncation toward zero,
the bounds test `start_sample < 0 or end_sample > len(audio)`, Python slicing,
and the 90%-coverage test `len(segment) < int(duration * sample_rate * 0.9)`
(the float literal `0.9` is the exact rational `9/10` in this idealisation). -/
def get_segment_features {τ : Type} (mel : List ℚ → τ) (cfg : ExtractorConfig)
    (audio : List ℚ) (start_time : ℚ) (duration : Option ℚ) : Option τ :=
  let d := resolveDuration cfg duration
  let start_sample := pyInt (start_time * cfg.sample_rate)
  let end_sample := pyInt ((start_time + d) * cfg.sample_rate)
  if start_sample < 0 ∨ (audio.length : ℤ) < end_sample then none
  else
    let segment := pySlice audio start_sample end_sample
    if (segment.length : ℤ) < pyInt (d * cfg.sample_rate * (9/10)) then none
    else some (mel segment)

/-- `get_audio_duration`. -/
def get_audio_duration (audio : List ℚ) (sample_rate : Option ℕ) : ℚ :=
  (audio.length : ℚ) / (resolveSampleRate sample_rate : ℚ)

/-- One output point of `generate_waveform_data`. -/
structure WaveformPoint where
  time : ℚ
  amplitude : ℚ
deriving DecidableEq

/-- The bucket of samples read by iteration `i` of `generate_waveform_data`:
`audio[i * samples_per_point : min(i * samples_per_point + samples_per_point,
len(audio))]` with `samples_per_point = len(audio) // num_points`. -/
def waveformSegment (audio : List ℚ) (num_points i : ℕ) : List ℚ :=
  let samples_per_point := audio.length / num_points
  let start_idx := i * samples_per_point
  let end_idx := min (start_idx + samples_per_point) audio.length
  pySlice audio (start_idx : ℤ) (end_idx : ℤ)

/-- `generate_waveform_data` (source lines 72-93).  The numpy RMS computation
`sqrt(mean(segment ** 2))` is an external numeric call (irrational in general)
abstracted as the parameter `rmsF`; clamping, scaling, timestamp computation
and 2-decimal rounding are embedded exactly. -/
def generate_waveform_data (rmsF : List ℚ → ℚ) (audio : List ℚ)
    (num_points : ℕ) (sample_rate : Option ℕ) : List WaveformPoint :=
  let sr := resolveSampleRate sample_rate
  let duration := (audio.length : ℚ) / (sr : ℚ)
  (List.range num_points).map (fun i =>
    let segment := waveformSegment audio num_points i
    let rms := rmsF segment
    let amplitude := min 100 (max 5 (rms * 1000))
    let time_point := ((i : ℚ) / (num_points : ℚ)) * duration
    ⟨pyRound2 time_point, pyRound2 amplitude⟩)

/-- `estimate_bpm` (source lines 96-104).  The librosa call
`beat_track(y=audio, sr=sample_rate)` followed by the ndarray scalarization
`tempo[0]` is abstracted as `beat_track`: `Except.error` models any exception
raised inside the `try` block by the estimator (including an out-of-range
`tempo[0]`), `Except.ok none` models a non-finite tempo value — on which the
source's `int(round(tempo))` raises, which the same `except` absorbs — and
`Except.ok (some t)` a finite tempo, which is rounded half-to-even. -/
def estimate_bpm (beat_track : List ℚ → ℕ → Except Unit (Option ℚ))
    (audio : List ℚ) (sample_rate : Option ℕ) : ℤ :=
  let sr := resolveSampleRate sample_rate
  match beat_track audio sr with
  | Except.error _ => 120
  | Except.ok none => 120
  | Except.ok (some tempo) => pyRound tempo

/-- `ChordPredictor.predict_segment` (predictor.py lines 46-63).  Everything
after segment extraction — feature normalization to zero mean / unit variance,
the torch forward pass, softmax, and arg-max — involves only the external
numeric runtime and the opaque model; it is abstracted as `classify`, mapping
the feature tensor to the chosen class index and its softmax confidence.  The
absent-feature branch returning `("N", 0.0)` is the repository's own code and
is embedded exactly. -/
def predict_segment {τ : Type} (mel : List ℚ → τ) (classify : τ → ℕ × ℚ)
    (cfg : ExtractorConfig) (audio : List ℚ) (start_time : ℚ) (duration : ℚ) :
    List Char × ℚ :=
  match get_segment_features mel cfg audio start_time (some duration) with
  | none => (str "N", 0)
  | some features =>
      let p := classify features
      (ChordVocabulary.decode p.1, p.2)

/-- One entry of the list built by `ChordPredictor.predict_audio`: timestamp,
the minute/second pair rendered into `formatted_time`, the decoded chord, and
the confidence scaled to percent and rounded to 1 decimal place. -/
structure PredEvent where
  timestamp : ℚ
  mins : ℤ
  secs : ℤ
  chord : List Char
  confidence : ℚ

/-- The `while t + hop_duration <= duration` loop of `predict_audio`
(predictor.py lines 65-84), parameterised by the current value of `t`.  The
source terminates only for `hop_duration > 0`; this embedding folds that
requirement into the loop guard (for a non-positive hop the source diverges,
and every claim below assumes a positive hop). -/
def predictLoop {τ : Type} (mel : List ℚ → τ) (classify : τ → ℕ × ℚ)
    (cfg : ExtractorConfig) (audio : List ℚ) (hop_duration : ℚ) (t : ℚ) :
    List PredEvent :=
  if h : 0 < hop_duration ∧ t + hop_duration ≤ (audio.length : ℚ) / (cfg.sample_rate : ℚ) then
    let pc := predict_segment mel classify cfg audio t hop_duration
    { timestamp := t
      mins := ⌊t / 60⌋
      secs := pyInt (t - 60 * (⌊t / 60⌋ : ℚ))
      chord := pc.1
      confidence := pyRound1 (pc.2 * 100) } ::
      predictLoop mel classify cfg audio hop_duration (t + hop_duration)
  else []
termination_by (⌊((audio.length : ℚ) / (cfg.sample_rate : ℚ) - t) / hop_duration⌋).toNat
decreasing_by
  obtain ⟨hpos, hle⟩ := h
  have hne : hop_duration ≠ 0 := ne_of_gt hpos
  have hstep : ((audio.length : ℚ) / (cfg.sample_rate : ℚ) - (t + hop_duration)) / hop_duration
      = ((audio.length : ℚ) / (cfg.sample_rate : ℚ) - t) / hop_duration - 1 := by
    field_simp
    ring
  have hone : (1 : ℤ) ≤ ⌊((audio.length : ℚ) / (cfg.sample_rate : ℚ) - t) / hop_duration⌋ := by
    rw [Int.le_floor]
    rw [le_div_iff₀ hpos]
    push_cast
    linarith
  rw [hstep]
  rw [show ((audio.length : ℚ) / (cfg.sample_rate : ℚ) - t) / hop_duration - 1
      = ((audio.length : ℚ) / (cfg.sample_rate : ℚ) - t) / hop_duration - (1 : ℤ) by push_cast; ring]
  rw [Int.floor_sub_int]
  omega

/-- `ChordPredictor.predict_audio`: run the hop loop from `t = 0`. -/
def predict_audio {τ : Type} (mel : List ℚ → τ) (classify : τ → ℕ × ℚ)
    (cfg : ExtractorConfig) (audio : List ℚ) (hop_duration : ℚ) : List PredEvent :=
  predictLoop mel classify cfg audio hop_duration 0

/-- The hop loop started at `t` emits exactly the timestamps
`t, t + hop, t + 2·hop, …`, one per whole hop that fits before the signal's
total duration. -/
lemma predictLoop_timestamp_map {τ : Type} (mel : List ℚ → τ) (classify : τ → ℕ × ℚ)
    (cfg : ExtractorConfig) (audio : List ℚ) (hop : ℚ) (hpos : 0 < hop) :
    ∀ (n : ℕ) (t : ℚ),
      (⌊((audio.length : ℚ) / (cfg.sample_rate : ℚ) - t) / hop⌋).toNat = n →
      (predictLoop mel classify cfg audio hop t).map PredEvent.timestamp
        = (List.range n).map (fun i : ℕ => t + (i : ℚ) * hop) := by
  intro n
  induction n with
  | zero =>
      intro t ht
      rw [predictLoop, dif_neg]
      · simp
      · rintro ⟨-, hle⟩
        have hone : (1 : ℤ) ≤ ⌊((audio.length : ℚ) / (cfg.sample_rate : ℚ) - t) / hop⌋ := by
          rw [Int.le_floor]
          rw [le_div_iff₀ hpos]
          push_cast
          linarith
        omega
  | succ n ih =>
      intro t ht
      have hone : (1 : ℤ) ≤ ⌊((audio.length : ℚ) / (cfg.sample_rate : ℚ) - t) / hop⌋ := by
        omega
      have hcond : t + hop ≤ (audio.length : ℚ) / (cfg.sample_rate : ℚ) := by
        have := Int.le_floor.1 hone
        rw [le_div_iff₀ hpos] at this
        push_cast at this
        linarith
      have hstep : ((audio.length : ℚ) / (cfg.sample_rate : ℚ) - (t + hop)) / hop
          = ((audio.length : ℚ) / (cfg.sample_rate : ℚ) - t) / hop - 1 := by
        field_simp
        ring
      have hnext : (⌊((audio.length : ℚ) / (cfg.sample_rate : ℚ) - (t + hop)) / hop⌋).toNat = n := by
        rw [hstep]
        rw [show ((audio.length : ℚ) / (cfg.sample_rate : ℚ) - t) / hop - 1
            = ((audio.length : ℚ) / (cfg.sample_rate : ℚ) - t) / hop - ((1 : ℤ) : ℚ) by push_cast; ring]
        rw [Int.floor_sub_int]
        omega
      rw [predictLoop, dif_pos ⟨hpos, hcond⟩]
      simp only [List.map_cons]
      rw [ih (t + hop) hnext]
      rw [List.range_succ_eq_map]
      simp only [List.map_cons, List.map_map, Function.comp]
      rw [show (fun i : ℕ => t + hop + (i : ℚ) * hop)
          = (fun i : ℕ => t + ((Nat.succ i : ℕ) : ℚ) * hop) by funext i; push_cast; ring]
      push_cast
      simp

/-- C2 (confirmed): for every signal and every positive hop duration,
`predict_audio` emits events whose timestamps are exactly `0, h, 2h, …`, in
strictly increasing order; their count is `⌊total_duration / h⌋` with
`total_duration = len(signal) / sample_rate`; and a signal shorter than one
hop yields the empty list. -/
theorem c2_predict_audio_grid {τ : Type} (mel : List ℚ → τ) (classify : τ → ℕ × ℚ)
    (cfg : ExtractorConfig) (audio : List ℚ) (hop_duration : ℚ)
    (hpos : 0 < hop_duration) (hsr : 0 < cfg.sample_rate) :
    (predict_audio mel classify cfg audio hop_duration).map PredEvent.timestamp
      = (List.range ((⌊(audio.length : ℚ) / (cfg.sample_rate : ℚ) / hop_duration⌋).toNat)).map
          (fun i : ℕ => (i : ℚ) * hop_duration) ∧
    (predict_audio mel classify cfg audio hop_duration).length
      = (⌊(audio.length : ℚ) / (cfg.sample_rate : ℚ) / hop_duration⌋).toNat ∧
    List.Pairwise (· < ·)
      ((predict_audio mel classify cfg audio hop_duration).map PredEvent.timestamp) ∧
    ((audio.length : ℚ) / (cfg.sample_rate : ℚ) < hop_duration →
      predict_audio mel classify cfg audio hop_duration = []) := by
  have hmap := predictLoop_timestamp_map mel classify cfg audio hop_duration hpos
    ((⌊((audio.length : ℚ) / (cfg.sample_rate : ℚ) - 0) / hop_duration⌋).toNat) 0 rfl
  rw [sub_zero] at hmap
  simp only [zero_add] at hmap
  unfold predict_audio
  refine ⟨hmap, ?_, ?_, ?_⟩
  · have hlen := congrArg List.length hmap
    simpa using hlen
  · rw [hmap]
    refine List.pairwise_map.2 ?_
    refine (List.pairwise_lt_range _).imp ?_
    intro i j hij
    exact mul_lt_mul_of_pos_right (by exact_mod_cast hij) hpos
  · intro hshort
    have hfl : ⌊(audio.length : ℚ) / (cfg.sample_rate : ℚ) / hop_duration⌋ < 1 := by
      have h1 : (audio.length : ℚ) / (cfg.sample_rate : ℚ) / hop_duration < 1 := by
        rw [div_lt_one hpos]
        exact hshort
      exact Int.floor_lt.2 (by exact_mod_cast h1)
    have hlen := congrArg List.length hmap
    simp only [List.length_map, List.length_range] at hlen
    have : (predictLoop mel classify cfg audio hop_duration 0).length = 0 := by
      omega
    exact List.length_eq_zero.1 this

/-- C2 (witness): a 5-sample signal at sample rate 1 with hop 2 — five seconds
of audio — yields exactly `⌊5 / 2⌋ = 2` events. -/
theorem c2_witness :
    (0 : ℚ) < 2 ∧ 0 < (⟨1, 1/2⟩ : ExtractorConfig).sample_rate ∧
    (predict_audio (fun seg => seg) (fun _ => (0, 0)) ⟨1, 1/2⟩
        (List.replicate 5 (0 : ℚ)) 2).length
      = (⌊((List.replicate 5 (0 : ℚ)).length : ℚ)
          / ((⟨1, 1/2⟩ : ExtractorConfig).sample_rate : ℚ) / 2⌋).toNat :=
  ⟨by norm_num, by decide,
    (c2_predict_audio_grid (fun seg => seg) (fun _ => (0, 0)) ⟨1, 1/2⟩
      (List.replicate 5 (0 : ℚ)) 2 (by norm_num) (by decide)).2.1⟩

/-- C9 (confirmed): whenever `get_segment_features` returns absent,
`predict_segment` returns exactly the sentinel pair `("N", 0.0)`, and its
result does not depend on the classifier — the model is never invoked on an
absent feature tensor. -/
theorem c9_sentinel_on_absent {τ : Type} (mel : List ℚ → τ)
    (classify classify' : τ → ℕ × ℚ) (cfg : ExtractorConfig) (audio : List ℚ)
    (start_time duration : ℚ)
    (habs : get_segment_features mel cfg audio start_time (some duration) = none) :
    predict_segment mel classify cfg audio start_time duration = (str "N", 0) ∧
    predict_segment mel classify cfg audio start_time duration
      = predict_segment mel classify' cfg audio start_time duration := by
  unfold predict_segment
  rw [habs]
  exact ⟨rfl, rfl⟩

/-- C9 (witness): on an empty signal the 0-to-1-second segment is absent and
`predict_segment` emits the sentinel pair. -/
theorem c9_witness :
    get_segment_features (fun seg => seg) (⟨1, 1/2⟩ : ExtractorConfig)
      [] 0 (some 1) = none ∧
    predict_segment (fun seg => seg) (fun _ => (0, 0)) ⟨1, 1/2⟩ [] 0 1
      = (str "N", 0) :=
  ⟨by simp [get_segment_features, resolveDuration, pyInt],
    (c9_sentinel_on_absent (fun seg => seg) (fun _ => (0, 0)) (fun _ => (1, 1))
      ⟨1, 1/2⟩ [] 0 1 (by simp [get_segment_features, resolveDuration, pyInt])).1⟩

/-- `pyInt` is monotone. -/
lemma pyInt_mono {q r : ℚ} (h : q ≤ r) : pyInt q ≤ pyInt r := by
  unfold pyInt
  by_cases hq : 0 ≤ q
  · rw [if_pos hq, if_pos (le_trans hq h)]
    exact Int.floor_le_floor h
  · rw [if_neg hq]
    by_cases hr : 0 ≤ r
    · rw [if_pos hr]
      calc ⌈q⌉ ≤ 0 := Int.ceil_le.2 (by push_neg at hq; exact_mod_cast le_of_lt hq)
        _ ≤ ⌊r⌋ := Int.le_floor.2 (by exact_mod_cast hr)
    · rw [if_neg hr]
      exact Int.ceil_le_ceil h

/-- `pyInt` of a nonpositive argument is at most any integer bound the
argument satisfies; in particular an argument `≤ -1` truncates below zero. -/
lemma pyInt_neg_of_le_neg_one {q : ℚ} (h : q ≤ -1) : pyInt q < 0 := by
  unfold pyInt
  rw [if_neg (by linarith : ¬ (0:ℚ) ≤ q)]
  have : ⌈q⌉ ≤ -1 := Int.ceil_le.2 (by exact_mod_cast h)
  omega

/-- `pyInt` never exceeds a natural-number upper bound of its argument. -/
lemma pyInt_le_of_le_natCast {q : ℚ} {n : ℕ} (h : q ≤ n) : pyInt q ≤ n := by
  unfold pyInt
  by_cases hq : 0 ≤ q
  · rw [if_pos hq]
    exact_mod_cast Int.floor_le_floor h |>.trans (le_of_eq (Int.floor_natCast n))
  · rw [if_neg hq]
    push_neg at hq
    calc ⌈q⌉ ≤ 0 := Int.ceil_le.2 (by exact_mod_cast le_of_lt hq)
      _ ≤ n := by positivity

/-- Python slicing with nonnegative in-range bounds is drop-then-take. -/
lemma pySlice_eq_drop_take {α : Type} (l : List α) (a b : ℤ)
    (ha : 0 ≤ a) (hb0 : 0 ≤ b) (hb : b ≤ l.length) :
    pySlice l a b = (l.drop a.toNat).take (b - a).toNat := by
  unfold pySlice
  dsimp only
  rw [if_neg (not_lt.2 ha), if_neg (not_lt.2 hb0), min_eq_left hb]
  by_cases hal : a ≤ (l.length : ℤ)
  · rw [min_eq_left hal]
  · push_neg at hal
    rw [min_eq_right (le_of_lt hal)]
    rw [Int.toNat_natCast]
    rw [List.drop_length]
    rw [List.drop_eq_nil_of_le (by omega)]
    simp

/-- Length of an in-range Python slice. -/
lemma pySlice_length_eq {α : Type} (l : List α) (a b : ℤ)
    (ha : 0 ≤ a) (hab : a ≤ b) (hb : b ≤ l.length) :
    ((pySlice l a b).length : ℤ) = b - a := by
  rw [pySlice_eq_drop_take l a b ha (le_trans ha hab) hb]
  rw [List.length_take, List.length_drop]
  omega

/-- Core truncation estimate behind the 90%-coverage check: when the requested
window spans `d ≥ 10` samples and the truncated start index is nonnegative,
the truncated index range `[int(s), int(s+d))` contains at least
`int(d * 0.9)` samples. -/
lemma ninety_percent_le {s d : ℚ} (hd : 10 ≤ d) (ha : 0 ≤ pyInt s) :
    pyInt (d * (9/10)) ≤ pyInt (s + d) - pyInt s := by
  have hd0 : (0:ℚ) < d := by linarith
  have hm : pyInt (d * (9/10)) = ⌊d * (9/10)⌋ := by
    unfold pyInt
    rw [if_pos (by positivity)]
  by_cases hs : 0 ≤ s
  · have h1 : pyInt s = ⌊s⌋ := by unfold pyInt; rw [if_pos hs]
    have h2 : pyInt (s + d) = ⌊s + d⌋ := by
      unfold pyInt
      rw [if_pos (by linarith)]
    rw [hm, h1, h2]
    have hfl : ⌊s⌋ + ⌊d * (9/10)⌋ ≤ ⌊s + d⌋ := by
      refine Int.le_floor.2 ?_
      push_cast
      have hfs := Int.floor_le s
      have hfd := Int.floor_le (d * (9/10))
      linarith
    omega
  · push_neg at hs
    have h1 : pyInt s = ⌈s⌉ := by unfold pyInt; rw [if_neg (not_le.2 hs)]
    have hceil0 : pyInt s = 0 := by
      refine le_antisymm ?_ ha
      rw [h1]
      exact Int.ceil_le.2 (by exact_mod_cast le_of_lt hs)
    have hs1 : (-1 : ℚ) < s := by
      have : (-1 : ℤ) < ⌈s⌉ := by
        rw [h1] at hceil0
        omega
      exact_mod_cast (Int.lt_ceil.1 this)
    have h2 : pyInt (s + d) = ⌊s + d⌋ := by
      unfold pyInt
      rw [if_pos (by linarith)]
    rw [hm, hceil0, h2, sub_zero]
    refine Int.le_floor.2 ?_
    have : (⌊d * (9/10)⌋ : ℚ) ≤ d * (9/10) := Int.floor_le _
    linarith

/-- `get_segment_features` with an explicit nonzero duration, written out with
both checks visible. -/
lemma get_segment_features_eval {τ : Type} (mel : List ℚ → τ) (cfg : ExtractorConfig)
    (audio : List ℚ) (start_time dur : ℚ) (hdur : dur ≠ 0) :
    get_segment_features mel cfg audio start_time (some dur) =
      if pyInt (start_time * cfg.sample_rate) < 0 ∨
          (audio.length : ℤ) < pyInt ((start_time + dur) * cfg.sample_rate) then none
      else if ((pySlice audio (pyInt (start_time * cfg.sample_rate))
            (pyInt ((start_time + dur) * cfg.sample_rate))).length : ℤ)
          < pyInt (dur * cfg.sample_rate * (9/10)) then none
      else some (mel (pySlice audio (pyInt (start_time * cfg.sample_rate))
            (pyInt ((start_time + dur) * cfg.sample_rate)))) := by
  unfold get_segment_features resolveDuration
  dsimp only
  rw [if_neg hdur]

/-- C10 (confirmed): whenever the bounds check passes (truncated start index
nonnegative, truncated end index within the signal) and the requested window
spans at least 10 samples (`duration * sample_rate ≥ 10`), the realized
segment always reaches the 90% quota, so the short-segment rejection branch
cannot fire: `get_segment_features` is absent exactly when the bounds check
fails. -/
theorem c10_short_branch_unreachable {τ : Type} (mel : List ℚ → τ)
    (cfg : ExtractorConfig) (hsr : 0 < cfg.sample_rate) (audio : List ℚ)
    (start_time dur : ℚ) (hd : 10 ≤ dur * cfg.sample_rate) :
    (0 ≤ pyInt (start_time * cfg.sample_rate) →
      pyInt ((start_time + dur) * cfg.sample_rate) ≤ (audio.length : ℤ) →
      pyInt (dur * cfg.sample_rate * (9/10))
        ≤ ((pySlice audio (pyInt (start_time * cfg.sample_rate))
            (pyInt ((start_time + dur) * cfg.sample_rate))).length : ℤ)) ∧
    (get_segment_features mel cfg audio start_time (some dur) = none ↔
      (pyInt (start_time * cfg.sample_rate) < 0 ∨
        (audio.length : ℤ) < pyInt ((start_time + dur) * cfg.sample_rate))) := by
  have hsrq : (0:ℚ) < cfg.sample_rate := by exact_mod_cast hsr
  have hdur : dur ≠ 0 := by
    intro h
    rw [h, zero_mul] at hd
    norm_num at hd
  have hexp : (start_time + dur) * (cfg.sample_rate : ℚ)
      = start_time * cfg.sample_rate + dur * cfg.sample_rate := by ring
  have hcover : 0 ≤ pyInt (start_time * cfg.sample_rate) →
      pyInt ((start_time + dur) * cfg.sample_rate) ≤ (audio.length : ℤ) →
      pyInt (dur * cfg.sample_rate * (9/10))
        ≤ ((pySlice audio (pyInt (start_time * cfg.sample_rate))
            (pyInt ((start_time + dur) * cfg.sample_rate))).length : ℤ) := by
    intro ha hb
    have hab : pyInt (start_time * cfg.sample_rate)
        ≤ pyInt ((start_time + dur) * cfg.sample_rate) := by
      refine pyInt_mono ?_
      rw [hexp]
      linarith
    rw [pySlice_length_eq audio _ _ ha hab hb]
    have hineq := ninety_percent_le (s := start_time * cfg.sample_rate) hd ha
    rw [← hexp] at hineq
    exact hineq
  refine ⟨hcover, ?_⟩
  rw [get_segment_features_eval mel cfg audio start_time dur hdur]
  constructor
  · intro hnone
    by_contra hcond
    rw [if_neg hcond] at hnone
    push_neg at hcond
    rw [if_neg (not_lt.2 (hcover hcond.1 hcond.2))] at hnone
    exact Option.some_ne_none _ hnone
  · intro hcond
    rw [if_pos hcond]

/-- C10 (witness): a 10-sample signal at rate 1, segment `[0, 10)`: the window
spans 10 samples, the bounds check passes, and the result is present. -/
theorem c10_witness :
    0 < (⟨1, 1/2⟩ : ExtractorConfig).sample_rate ∧
    (10 : ℚ) ≤ 10 * ((⟨1, 1/2⟩ : ExtractorConfig).sample_rate : ℚ) ∧
    (get_segment_features (fun seg => seg) (⟨1, 1/2⟩ : ExtractorConfig)
        (List.replicate 10 (0:ℚ)) 0 (some 10) = none ↔
      (pyInt (0 * ((⟨1, 1/2⟩ : ExtractorConfig).sample_rate : ℚ)) < 0 ∨
        (((List.replicate 10 (0:ℚ)).length : ℤ)
          < pyInt ((0 + 10) * ((⟨1, 1/2⟩ : ExtractorConfig).sample_rate : ℚ))))) :=
  ⟨by decide, by norm_num,
    (c10_short_branch_unreachable (fun seg => seg) ⟨1, 1/2⟩ (by decide)
      (List.replicate 10 (0:ℚ)) 0 10 (by norm_num)).2⟩

/-- C3 (counterexample): the claim's exact thresholds fail because the sample
indices are truncated toward zero.  At sample rate 2, a negative start time of
`-1/4` (start sample `int(-0.5) = 0`) passes the bounds check and the call
returns a tensor; and at sample rate 1 on a 10-sample signal, a requested
range `[0, 10.5)` with `start_time + duration > signal_duration` also returns
a tensor (end sample `int(10.5) = 10` is still within bounds). -/
theorem c3_counterexample :
    ((-(1:ℚ)/4 < 0) ∧
      (get_segment_features (fun seg => seg) (⟨2, 1/2⟩ : ExtractorConfig)
        (List.replicate 10 (0:ℚ)) (-(1:ℚ)/4) (some 5)).isSome) ∧
    (((0:ℚ) + 21/2 > ((List.replicate 10 (0:ℚ)).length : ℚ)
        / ((⟨1, 1/2⟩ : ExtractorConfig).sample_rate : ℚ)) ∧
      (get_segment_features (fun seg => seg) (⟨1, 1/2⟩ : ExtractorConfig)
        (List.replicate 10 (0:ℚ)) 0 (some (21/2))).isSome) := by
  constructor
  · refine ⟨by norm_num, ?_⟩
    rw [get_segment_features_eval _ _ _ _ _ (by norm_num)]
    have h1 : pyInt (-(1:ℚ)/4 * ((⟨2, 1/2⟩ : ExtractorConfig).sample_rate : ℚ)) = 0 := by
      show pyInt (-(1:ℚ)/4 * ((2:ℕ):ℚ)) = 0
      unfold pyInt
      norm_num
    have h2 : pyInt ((-(1:ℚ)/4 + 5) * ((⟨2, 1/2⟩ : ExtractorConfig).sample_rate : ℚ)) = 9 := by
      show pyInt ((-(1:ℚ)/4 + 5) * ((2:ℕ):ℚ)) = 9
      unfold pyInt
      rw [if_pos (by norm_num)]
      rw [show (-(1:ℚ)/4 + 5) * ((2:ℕ):ℚ) = 19/2 by push_cast; ring]
      rw [Int.floor_eq_iff]
      norm_num
    have h3 : pyInt ((5:ℚ) * ((⟨2, 1/2⟩ : ExtractorConfig).sample_rate : ℚ) * (9/10)) = 9 := by
      show pyInt ((5:ℚ) * ((2:ℕ):ℚ) * (9/10)) = 9
      unfold pyInt
      rw [if_pos (by norm_num)]
      rw [show (5:ℚ) * ((2:ℕ):ℚ) * (9/10) = 9 by push_cast; ring]
      exact Int.floor_intCast 9
    rw [h1, h2, h3]
    have hlen : ((pySlice (List.replicate 10 (0:ℚ)) 0 9).length : ℤ) = 9 - 0 := by
      refine pySlice_length_eq _ _ _ (by norm_num) (by norm_num) (by simp)
    rw [if_neg (by simp), if_neg (by rw [hlen]; norm_num)]
    rfl
  · refine ⟨by simp; norm_num, ?_⟩
    rw [get_segment_features_eval _ _ _ _ _ (by norm_num)]
    have h1 : pyInt ((0:ℚ) * ((⟨1, 1/2⟩ : ExtractorConfig).sample_rate : ℚ)) = 0 := by
      show pyInt ((0:ℚ) * ((1:ℕ):ℚ)) = 0
      unfold pyInt
      norm_num
    have h2 : pyInt (((0:ℚ) + 21/2) * ((⟨1, 1/2⟩ : ExtractorConfig).sample_rate : ℚ)) = 10 := by
      show pyInt (((0:ℚ) + 21/2) * ((1:ℕ):ℚ)) = 10
      unfold pyInt
      rw [if_pos (by norm_num)]
      rw [show ((0:ℚ) + 21/2) * ((1:ℕ):ℚ) = 21/2 by push_cast; ring]
      rw [Int.floor_eq_iff]
      norm_num
    have h3 : pyInt ((21/2:ℚ) * ((⟨1, 1/2⟩ : ExtractorConfig).sample_rate : ℚ) * (9/10)) = 9 := by
      show pyInt ((21/2:ℚ) * ((1:ℕ):ℚ) * (9/10)) = 9
      unfold pyInt
      rw [if_pos (by norm_num)]
      rw [show (21/2:ℚ) * ((1:ℕ):ℚ) * (9/10) = 189/20 by push_cast; ring]
      rw [Int.floor_eq_iff]
      norm_num
    rw [h1, h2, h3]
    have hlen : ((pySlice (List.replicate 10 (0:ℚ)) 0 10).length : ℤ) = 10 - 0 := by
      refine pySlice_length_eq _ _ _ (by norm_num) (by norm_num) (by simp)
    rw [if_neg (by simp), if_neg (by rw [hlen]; norm_num)]
    rfl

/-- C3 (amended): the absent/present decision is made on truncated sample
indices, so the spec's thresholds hold with a one-sample (`1/sample_rate`)
tolerance: the call is absent whenever `start_time ≤ -1/sr`, whenever
`start_time + duration ≥ (len(audio)+1)/sr`, and whenever the realized segment
covers less than `int(duration·sr·0.9)` samples; and it returns a feature
tensor whenever `start_time ≥ 0`, `start_time + duration ≤ signal_duration`,
and the realized segment meets the 90% quota.  (Inside the truncation gaps —
`start_time ∈ (-1/sr, 0)` or an end up to one sample past the signal — the
bounds check can still pass, as the counterexample shows.) -/
theorem c3_segment_bounds {τ : Type} (mel : List ℚ → τ) (cfg : ExtractorConfig)
    (hsr : 0 < cfg.sample_rate) (audio : List ℚ) (start_time dur : ℚ)
    (hdur : 0 < dur) :
    (start_time ≤ -(1 / (cfg.sample_rate : ℚ)) →
      get_segment_features mel cfg audio start_time (some dur) = none) ∧
    (((audio.length : ℚ) + 1) / (cfg.sample_rate : ℚ) ≤ start_time + dur →
      get_segment_features mel cfg audio start_time (some dur) = none) ∧
    (((pySlice audio (pyInt (start_time * cfg.sample_rate))
          (pyInt ((start_time + dur) * cfg.sample_rate))).length : ℤ)
        < pyInt (dur * cfg.sample_rate * (9/10)) →
      get_segment_features mel cfg audio start_time (some dur) = none) ∧
    (0 ≤ start_time →
      start_time + dur ≤ (audio.length : ℚ) / (cfg.sample_rate : ℚ) →
      pyInt (dur * cfg.sample_rate * (9/10))
        ≤ ((pySlice audio (pyInt (start_time * cfg.sample_rate))
            (pyInt ((start_time + dur) * cfg.sample_rate))).length : ℤ) →
      (get_segment_features mel cfg audio start_time (some dur)).isSome) := by
  have hsrq : (0:ℚ) < cfg.sample_rate := by exact_mod_cast hsr
  have hne : dur ≠ 0 := ne_of_gt hdur
  rw [get_segment_features_eval mel cfg audio start_time dur hne]
  refine ⟨?_, ?_, ?_, ?_⟩
  · intro hstart
    have hq : start_time * cfg.sample_rate ≤ -1 := by
      have h1 := mul_le_mul_of_nonneg_right hstart (le_of_lt hsrq)
      have h2 : -(1 / (cfg.sample_rate : ℚ)) * cfg.sample_rate = -1 := by
        field_simp
      linarith
    rw [if_pos (Or.inl (pyInt_neg_of_le_neg_one hq))]
  · intro hend
    have hq : ((audio.length : ℚ) + 1) ≤ (start_time + dur) * cfg.sample_rate := by
      rw [div_le_iff₀ hsrq] at hend
      linarith
    have harg : (0:ℚ) ≤ (start_time + dur) * cfg.sample_rate :=
      le_trans (by positivity) hq
    have hfl : (audio.length : ℤ) + 1 ≤ pyInt ((start_time + dur) * cfg.sample_rate) := by
      unfold pyInt
      rw [if_pos harg]
      exact Int.le_floor.2 (by push_cast; linarith)
    rw [if_pos (Or.inr (by omega))]
  · intro hshort
    by_cases hcond : pyInt (start_time * cfg.sample_rate) < 0 ∨
        (audio.length : ℤ) < pyInt ((start_time + dur) * cfg.sample_rate)
    · rw [if_pos hcond]
    · rw [if_neg hcond, if_pos hshort]
  · intro h0 hfit hcov
    have ha : 0 ≤ pyInt (start_time * cfg.sample_rate) := by
      unfold pyInt
      rw [if_pos (mul_nonneg h0 (le_of_lt hsrq))]
      exact Int.floor_nonneg.2 (mul_nonneg h0 (le_of_lt hsrq))
    have hb : pyInt ((start_time + dur) * cfg.sample_rate) ≤ (audio.length : ℤ) := by
      refine pyInt_le_of_le_natCast ?_
      rw [le_div_iff₀ hsrq] at hfit
      exact hfit
    rw [if_neg (by push_neg; exact ⟨ha, hb⟩), if_neg (not_lt.2 hcov)]
    rfl

/-- C3 (witness): at sample rate 1 a start time of `-1` (one full sample
early) is rejected as absent. -/
theorem c3_segment_bounds_witness :
    0 < (⟨1, 1/2⟩ : ExtractorConfig).sample_rate ∧ (0:ℚ) < 10 ∧
    get_segment_features (fun seg => seg) (⟨1, 1/2⟩ : ExtractorConfig)
      (List.replicate 10 (0:ℚ)) (-1) (some 10) = none :=
  ⟨by decide, by norm_num,
    (c3_segment_bounds (fun seg => seg) ⟨1, 1/2⟩ (by decide)
      (List.replicate 10 (0:ℚ)) (-1) 10 (by norm_num)).1
      (by norm_num)⟩

/-- Each bucket of `generate_waveform_data` below the point count is a full
`samples_per_point`-length window: the `min` clamp never shortens it, because
`num_points * samples_per_point ≤ len(audio)`. -/
lemma waveformSegment_eq_drop_take (audio : List ℚ) (n i : ℕ) (hi : i < n) :
    waveformSegment audio n i
      = (audio.drop (i * (audio.length / n))).take (audio.length / n) := by
  unfold waveformSegment
  dsimp only
  have h2 : n * (audio.length / n) ≤ audio.length := by
    rw [mul_comm]
    exact Nat.div_mul_le_self audio.length n
  have h1 : (i + 1) * (audio.length / n) ≤ n * (audio.length / n) :=
    Nat.mul_le_mul_right _ hi
  rw [Nat.succ_mul] at h1
  have hle : i * (audio.length / n) + audio.length / n ≤ audio.length := by omega
  rw [min_eq_left hle]
  rw [pySlice_eq_drop_take _ _ _ (by positivity) (by positivity) (by exact_mod_cast hle)]
  have e1 : ((i * (audio.length / n) + audio.length / n : ℕ) : ℤ) -
      ((i * (audio.length / n) : ℕ) : ℤ) = ((audio.length / n : ℕ) : ℤ) := by
    push_cast
    ring
  rw [e1, Int.toNat_natCast, Int.toNat_natCast]

/-- The concatenation of the first `k` buckets is exactly the first
`k * samples_per_point` samples of the signal. -/
lemma waveform_join_eq_take (audio : List ℚ) (n : ℕ) :
    ∀ k, k ≤ n →
      ((List.range k).map (fun i => waveformSegment audio n i)).flatten
        = audio.take (k * (audio.length / n)) := by
  intro k
  induction k with
  | zero => intro _; simp
  | succ k ih =>
      intro hk
      rw [List.range_succ, List.map_append, List.flatten_append]
      rw [ih (Nat.le_of_succ_le hk)]
      simp only [List.map_cons, List.map_nil, List.flatten_cons, List.flatten_nil,
        List.append_nil]
      rw [waveformSegment_eq_drop_take audio n k hk]
      rw [Nat.succ_mul, List.take_add]

/-- C5 (counterexample): on a 10-sample signal with 3 points the three buckets
jointly contain only `3 * (10 / 3) = 9` samples — the remainder sample is
dropped, not included in any bucket. -/
theorem c5_counterexample :
    (((List.range 3).map
        (fun i => waveformSegment ((List.range 10).map (fun k : ℕ => (k:ℚ))) 3 i)).flatten).length = 9 ∧
    ((List.range 10).map (fun k : ℕ => (k:ℚ))).length = 10 := by
  have hlen : ((List.range 10).map (fun k : ℕ => (k:ℚ))).length = 10 := by
    rw [List.length_map, List.length_range]
  constructor
  · rw [waveform_join_eq_take _ 3 3 le_rfl]
    rw [List.length_take, hlen]
    norm_num
  · exact hlen

/-- C5 (amended): the buckets are contiguous and equal-length, and their
concatenation is exactly the first `num_points * (len / num_points)` samples
of the signal: the `len mod num_points` remainder samples at the tail are
dropped (they are included only when `num_points` divides the length; the
`min` clamp in the source never fires). -/
theorem c5_bucket_union_eq_take (audio : List ℚ) (n : ℕ) (hn : 0 < n) :
    ((List.range n).map (fun i => waveformSegment audio n i)).flatten
      = audio.take (n * (audio.length / n)) ∧
    audio.length - n * (audio.length / n) = audio.length % n := by
  refine ⟨waveform_join_eq_take audio n n le_rfl, ?_⟩
  have h := Nat.div_add_mod audio.length n
  omega

/-- C5 (witness): the amended statement at the 10-sample, 3-point input. -/
theorem c5_bucket_union_eq_take_witness :
    0 < 3 ∧
    ((List.range 3).map
        (fun i => waveformSegment ((List.range 10).map (fun k : ℕ => (k:ℚ))) 3 i)).flatten
      = ((List.range 10).map (fun k : ℕ => (k:ℚ))).take
          (3 * (((List.range 10).map (fun k : ℕ => (k:ℚ))).length / 3)) :=
  ⟨by norm_num,
    (c5_bucket_union_eq_take ((List.range 10).map (fun k : ℕ => (k:ℚ))) 3 (by norm_num)).1⟩

/-- C7 (confirmed): `estimate_bpm` is a total function — it never raises to
the caller.  On any failure of the beat-tracking estimator (a raised
exception, or a non-finite tempo, on which the internal integer conversion
raises and is caught by the same handler) it returns the fixed fallback 120;
on a successful finite tempo it returns that tempo rounded to an integer; and
in every case the result is either 120 or the rounding of a successfully
estimated tempo. -/
theorem c7_estimate_bpm_total (beat_track : List ℚ → ℕ → Except Unit (Option ℚ))
    (audio : List ℚ) (sample_rate : Option ℕ) :
    (∀ e, beat_track audio (resolveSampleRate sample_rate) = Except.error e →
      estimate_bpm beat_track audio sample_rate = 120) ∧
    (beat_track audio (resolveSampleRate sample_rate) = Except.ok none →
      estimate_bpm beat_track audio sample_rate = 120) ∧
    (∀ t : ℚ, beat_track audio (resolveSampleRate sample_rate) = Except.ok (some t) →
      estimate_bpm beat_track audio sample_rate = pyRound t) ∧
    (estimate_bpm beat_track audio sample_rate = 120 ∨
      ∃ t : ℚ, beat_track audio (resolveSampleRate sample_rate) = Except.ok (some t) ∧
        estimate_bpm beat_track audio sample_rate = pyRound t) := by
  unfold estimate_bpm
  dsimp only
  refine ⟨?_, ?_, ?_, ?_⟩
  · intro e he
    rw [he]
  · intro he
    rw [he]
  · intro t ht
    rw [ht]
  · cases hbt : beat_track audio (resolveSampleRate sample_rate) with
    | error e => exact Or.inl rfl
    | ok o =>
        cases o with
        | none => exact Or.inl rfl
        | some t => exact Or.inr ⟨t, rfl, rfl⟩

/-- C7 (witness): a raising estimator yields the fallback 120 on the empty
signal at the default sample rate. -/
theorem c7_estimate_bpm_witness :
    (fun (_ : List ℚ) (_ : ℕ) => (Except.error () : Except Unit (Option ℚ))) []
        (resolveSampleRate none) = Except.error () ∧
    estimate_bpm (fun _ _ => Except.error ()) [] none = 120 :=
  ⟨rfl,
    (c7_estimate_bpm_total (fun _ _ => Except.error ()) [] none).1 () rfl⟩

/-- Banker's rounding is monotone. -/
lemma pyRound_mono {q r : ℚ} (h : q ≤ r) : pyRound q ≤ pyRound r := by
  unfold pyRound
  rcases lt_or_eq_of_le (Int.floor_le_floor h) with hlt | heq
  · split_ifs <;> omega
  · rw [← heq]
    have hq : q - ⌊q⌋ ≤ r - ⌊q⌋ := by linarith
    split_ifs <;> first | omega | linarith

/-- Rounding to two decimal places is monotone. -/
lemma pyRound2_mono {q r : ℚ} (h : q ≤ r) : pyRound2 q ≤ pyRound2 r := by
  unfold pyRound2
  have h1 : pyRound (q * 100) ≤ pyRound (r * 100) :=
    pyRound_mono (by linarith)
  have h2 : ((pyRound (q * 100) : ℚ)) ≤ (pyRound (r * 100) : ℚ) := by
    exact_mod_cast h1
  linarith

/-- `pyRound` fixes integers. -/
lemma pyRound_intCast (z : ℤ) : pyRound (z : ℚ) = z := by
  unfold pyRound
  rw [Int.floor_intCast]
  rw [if_pos (by norm_num)]

/-- The time stamps emitted by `generate_waveform_data`, in order. -/
lemma generate_waveform_time_map (rmsF : List ℚ → ℚ) (audio : List ℚ)
    (num_points : ℕ) (sample_rate : Option ℕ) :
    (generate_waveform_data rmsF audio num_points sample_rate).map WaveformPoint.time
      = (List.range num_points).map (fun i : ℕ =>
          pyRound2 (((i : ℚ) / (num_points : ℚ))
            * ((audio.length : ℚ) / (resolveSampleRate sample_rate : ℚ)))) := by
  unfold generate_waveform_data
  dsimp only
  rw [List.map_map]
  rfl

/-- Every amplitude produced by the clamp-then-round pipeline is in `[5, 100]`. -/
lemma amplitude_bounds (x : ℚ) :
    5 ≤ pyRound2 (min 100 (max 5 x)) ∧ pyRound2 (min 100 (max 5 x)) ≤ 100 := by
  have h5 : (5:ℚ) ≤ min 100 (max 5 x) := le_min (by norm_num) (le_max_left _ _)
  have h100 : min 100 (max 5 x) ≤ 100 := min_le_left _ _
  have e5 : pyRound2 (5:ℚ) = 5 := by
    unfold pyRound2
    rw [show (5:ℚ) * 100 = ((500:ℤ) : ℚ) by norm_num, pyRound_intCast]
    norm_num
  have e100 : pyRound2 (100:ℚ) = 100 := by
    unfold pyRound2
    rw [show (100:ℚ) * 100 = ((10000:ℤ) : ℚ) by norm_num, pyRound_intCast]
    norm_num
  constructor
  · exact le_trans (le_of_eq e5.symm) (pyRound2_mono h5)
  · exact le_trans (pyRound2_mono h100) (le_of_eq e100)

/-- C8 (confirmed, reading "monotonically increasing" as non-decreasing):
for every signal and every `num_points ≥ 1`, `generate_waveform_data` returns
exactly `num_points` points, every amplitude lies in `[5, 100]`, and the
timestamp of point `i` is `(i / num_points) * total_duration` rounded to two
decimal places.  In the concrete scenario of a 10000-sample signal with
`num_points = 100` at the default sample rate 22050, the 100 time values are
monotonically non-decreasing (consecutive values can coincide after rounding,
e.g. points 0 and 1 both read 0.0) and all lie in `[0, total_duration)`. -/
theorem c8_waveform_points :
    (∀ (rmsF : List ℚ → ℚ) (audio : List ℚ) (num_points : ℕ) (sample_rate : Option ℕ),
      1 ≤ num_points →
      (generate_waveform_data rmsF audio num_points sample_rate).length = num_points ∧
      (∀ p ∈ generate_waveform_data rmsF audio num_points sample_rate,
        5 ≤ p.amplitude ∧ p.amplitude ≤ 100) ∧
      (generate_waveform_data rmsF audio num_points sample_rate).map WaveformPoint.time
        = (List.range num_points).map (fun i : ℕ =>
            pyRound2 (((i : ℚ) / (num_points : ℚ))
              * ((audio.length : ℚ) / (resolveSampleRate sample_rate : ℚ))))) ∧
    (∀ (rmsF : List ℚ → ℚ) (audio : List ℚ), audio.length = 10000 →
      List.Pairwise (· ≤ ·)
        ((generate_waveform_data rmsF audio 100 none).map WaveformPoint.time) ∧
      (∀ t ∈ (generate_waveform_data rmsF audio 100 none).map WaveformPoint.time,
        0 ≤ t ∧ t < (10000 : ℚ) / 22050)) := by
  have e0 : pyRound2 (0:ℚ) = 0 := by
    unfold pyRound2
    rw [show (0:ℚ) * 100 = ((0:ℤ) : ℚ) by norm_num, pyRound_intCast]
    norm_num
  constructor
  · intro rmsF audio num_points sample_rate _
    refine ⟨?_, ?_, generate_waveform_time_map rmsF audio num_points sample_rate⟩
    · unfold generate_waveform_data
      dsimp only
      rw [List.length_map, List.length_range]
    · intro p hp
      unfold generate_waveform_data at hp
      dsimp only at hp
      rw [List.mem_map] at hp
      obtain ⟨i, -, rfl⟩ := hp
      exact amplitude_bounds _
  · intro rmsF audio haudio
    rw [generate_waveform_time_map, haudio]
    have hD : (0:ℚ) ≤ ((10000:ℕ) : ℚ) / ((resolveSampleRate none : ℕ) : ℚ) := by
      positivity
    have hmono : ∀ i j : ℕ, i ≤ j →
        pyRound2 (((i : ℚ) / (100 : ℚ)) * (((10000:ℕ) : ℚ) / (resolveSampleRate none : ℚ)))
          ≤ pyRound2 (((j : ℚ) / (100 : ℚ)) * (((10000:ℕ) : ℚ) / (resolveSampleRate none : ℚ))) := by
      intro i j hij
      refine pyRound2_mono ?_
      have h1 : (i : ℚ) / 100 ≤ (j : ℚ) / 100 := by
        have : (i : ℚ) ≤ (j : ℚ) := by exact_mod_cast hij
        linarith
      exact mul_le_mul_of_nonneg_right h1 hD
    have hlast : pyRound2 (((99:ℕ) : ℚ) / (100 : ℚ)
        * (((10000:ℕ) : ℚ) / (resolveSampleRate none : ℚ))) = 9/20 := by
      have harg : ((99:ℕ) : ℚ) / (100 : ℚ)
          * (((10000:ℕ) : ℚ) / (resolveSampleRate none : ℚ)) = 22/49 := by
        show ((99:ℕ) : ℚ) / (100 : ℚ) * (((10000:ℕ) : ℚ) / ((22050:ℕ) : ℚ)) = 22/49
        push_cast
        norm_num
      rw [harg]
      unfold pyRound2 pyRound
      rw [show (22:ℚ)/49 * 100 = 2200/49 by norm_num]
      have hfl : ⌊(2200:ℚ)/49⌋ = 44 := by
        rw [Int.floor_eq_iff]
        norm_num
      rw [hfl]
      norm_num
    constructor
    · refine List.pairwise_map.2 ?_
      refine (List.pairwise_lt_range _).imp ?_
      intro i j hij
      exact hmono i j (le_of_lt hij)
    · intro t ht
      rw [List.mem_map] at ht
      obtain ⟨i, hi, rfl⟩ := ht
      rw [List.mem_range] at hi
      constructor
      · refine le_trans (le_of_eq e0.symm) (pyRound2_mono ?_)
        positivity
      · refine lt_of_le_of_lt (hmono i 99 (by omega)) ?_
        rw [hlast]
        show (9:ℚ)/20 < (10000 : ℚ) / 22050
        norm_num

/-- C8 (witness): the general statement instantiated at a 10000-sample all-zero
signal with 100 points. -/
theorem c8_waveform_points_witness :
    1 ≤ 100 ∧ (List.replicate 10000 (0:ℚ)).length = 10000 ∧
    (generate_waveform_data (fun _ => 0) (List.replicate 10000 (0:ℚ)) 100 none).length
      = 100 :=
  ⟨by norm_num, List.length_replicate 10000 0,
    (c8_waveform_points.1 (fun _ => 0) (List.replicate 10000 (0:ℚ)) 100 none
      (by norm_num)).1⟩
